import Mathlib

/-!
Verification of the duckpond repository: a demo script (`src/deltalake/write.py`)
driving a minimal transactional append-only table storage engine (delta-lake style).
The script's own pure parts (`generate_data`, `storage_options`, path selection)
are embedded directly from the source; the storage engine the script invokes is
not part of the source tree and is modelled from the specification.
-/

namespace DuckPond

/-- A column value: integers, strings, timestamps (modelled as integer days), null. -/
inductive Value where
  | intV (n : Int)
  | strV (s : String)
  | timeV (t : Int)
  | nullV
deriving DecidableEq, Repr

/-- Column types, matching the constructors of `Value`. -/
inductive ValueType where
  | intT
  | strT
  | timeT
  | nullT
deriving DecidableEq, Repr

def Value.typeOf : Value → ValueType
  | .intV _ => .intT
  | .strV _ => .strT
  | .timeV _ => .timeT
  | .nullV => .nullT

/-- A row is an ordered mapping from column name to value. -/
abbrev Row := List (String × Value)

/-- A row batch is an ordered sequence of rows. -/
abbrev Batch := List Row

/-- A schema is the list of (column name, type) pairs. -/
abbrev Schema := List (String × ValueType)

/-- Look up the value of a column in a row (first match wins). -/
def colVal : Row → String → Option Value
  | [], _ => none
  | (n, v) :: rest, c => if n = c then some v else colVal rest c

def rowSchema (r : Row) : Schema := r.map (fun p => (p.1, p.2.typeOf))

/-- The schema of a batch: every row of a DataFrame shares the first row's schema. -/
def batchSchema : Batch → Schema
  | [] => []
  | r :: _ => rowSchema r

/-- Embedded from `src/deltalake/write.py` lines 22-33: rows with
`id = start_id + i`, constant message, `last_modified = start_time - i` days,
and `user` chosen by the parity of `start_id + i`. -/
def generate_data (start_id : Int) (num_rows : Nat) (start_time : Int) : Batch :=
  (List.range num_rows).map (fun (i : Nat) =>
    [("id", Value.intV (start_id + (i : Int))),
     ("message", Value.strV "Hello, World!"),
     ("last_modified", Value.timeV (start_time - (i : Int))),
     ("user", Value.strV (if (start_id + (i : Int)) % 2 = 0 then "even_user" else "odd_user"))])

/-- The row produced by `generate_data` at index `i`. -/
def generatedRow (start_id : Int) (start_time : Int) (i : Nat) : Row :=
  [("id", Value.intV (start_id + i)),
   ("message", Value.strV "Hello, World!"),
   ("last_modified", Value.timeV (start_time - i)),
   ("user", Value.strV (if (start_id + (i : Int)) % 2 = 0 then "even_user" else "odd_user"))]

theorem generate_data_length (s : Int) (n : Nat) (t : Int) :
    (generate_data s n t).length = n := by
  unfold generate_data
  rw [List.length_map, List.length_range]

theorem generate_data_get? (s : Int) (n : Nat) (t : Int) (i : Nat) (h : i < n) :
    (generate_data s n t)[i]? = some (generatedRow s t i) := by
  unfold generate_data generatedRow
  rw [List.getElem?_map, List.getElem?_range h]
  rfl

theorem generate_data_mem (s : Int) (n : Nat) (t : Int) (i : Nat) (h : i < n) :
    generatedRow s t i ∈ generate_data s n t := by
  have h1 := generate_data_get? s n t i h
  have h2 : i < (generate_data s n t).length := by
    rw [generate_data_length]
    exact h
  rw [List.getElem?_eq_getElem h2] at h1
  injection h1 with h3
  rw [← h3]
  exact List.getElem_mem h2

/-- Claim C9: for every start_id, num_rows and start_time, `generate_data` returns a
batch of exactly num_rows rows where row i has id = start_id + i, the constant
message, last_modified = start_time minus i days, and user chosen by the parity of
start_id + i; for num_rows ≥ 2 the batch contains both partition values. -/
theorem C9_generate_data_rows (s : Int) (n : Nat) (t : Int) :
    (generate_data s n t).length = n ∧
    (∀ (i : Nat) (r : Row), i < n → (generate_data s n t)[i]? = some r →
      colVal r "id" = some (Value.intV (s + i)) ∧
      colVal r "message" = some (Value.strV "Hello, World!") ∧
      colVal r "last_modified" = some (Value.timeV (t - i)) ∧
      colVal r "user" =
        some (Value.strV (if (s + (i : Int)) % 2 = 0 then "even_user" else "odd_user"))) ∧
    (2 ≤ n →
      (∃ r ∈ generate_data s n t, colVal r "user" = some (Value.strV "even_user")) ∧
      (∃ r ∈ generate_data s n t, colVal r "user" = some (Value.strV "odd_user"))) := by
  refine ⟨generate_data_length s n t, ?_, ?_⟩
  · intro i r hi hr
    rw [generate_data_get? s n t i hi] at hr
    cases hr
    simp [generatedRow, colVal]
  · intro hn
    have m0 : generatedRow s t 0 ∈ generate_data s n t := generate_data_mem s n t 0 (by omega)
    have m1 : generatedRow s t 1 ∈ generate_data s n t := generate_data_mem s n t 1 (by omega)
    rcases Int.emod_two_eq_zero_or_one s with hs | hs
    · refine ⟨⟨generatedRow s t 0, m0, ?_⟩, ⟨generatedRow s t 1, m1, ?_⟩⟩
      · simp [generatedRow, colVal, hs]
      · have h2 : (s + 1) % 2 = 1 := by omega
        simp [generatedRow, colVal, h2]
    · refine ⟨⟨generatedRow s t 1, m1, ?_⟩, ⟨generatedRow s t 0, m0, ?_⟩⟩
      · have h2 : (s + 1) % 2 = 0 := by omega
        simp [generatedRow, colVal, h2]
      · simp [generatedRow, colVal, hs]

/-- Witness for C9 at start_id 1, num_rows 3, start_time 0. -/
theorem C9_generate_data_rows_witness :
    (generate_data 1 3 0).length = 3 ∧
    colVal [("id", Value.intV 2), ("message", Value.strV "Hello, World!"),
      ("last_modified", Value.timeV (-1)), ("user", Value.strV "even_user")] "id" =
      some (Value.intV 2) ∧
    (∃ r ∈ generate_data 1 3 0, colVal r "user" = some (Value.strV "even_user")) := by
  obtain ⟨hlen, hrow, hboth⟩ := C9_generate_data_rows 1 3 0
  refine ⟨hlen, ?_, (hboth (by decide)).1⟩
  exact (hrow 1 [("id", Value.intV 2), ("message", Value.strV "Hello, World!"),
    ("last_modified", Value.timeV (-1)), ("user", Value.strV "even_user")]
    (by decide) (by decide)).1

/-! ### PartitionPlanner -/

def hivePartitionSentinel : String := "__HIVE_DEFAULT_PARTITION__"

/-- Deterministic stringification of partition values. -/
def stringifyValue : Value → String
  | .intV n => toString n
  | .strV s => s
  | .timeV t => toString t
  | .nullV => hivePartitionSentinel

/-- One `col=value` path segment; null or missing values map to the sentinel. -/
def partitionSegment (r : Row) (c : String) : String :=
  match colVal r c with
  | some Value.nullV => c ++ "=" ++ hivePartitionSentinel
  | some v => c ++ "=" ++ stringifyValue v
  | none => c ++ "=" ++ hivePartitionSentinel

/-- The partition directory path of a row for an ordered partition-column list. -/
def partitionPath (cols : List String) (r : Row) : String :=
  String.intercalate "/" (cols.map (partitionSegment r))

/-- First-occurrence deduplication, accumulating the keys already seen. -/
def distinctsAux {α : Type} [DecidableEq α] (seen : List α) : List α → List α
  | [] => []
  | a :: rest =>
    if a ∈ seen then distinctsAux seen rest else a :: distinctsAux (a :: seen) rest

def distincts {α : Type} [DecidableEq α] (l : List α) : List α := distinctsAux [] l

/-- Modelled from the spec: the PartitionPlanner (spec §4.2) maps a row batch and an
ordered partition-column list to groups keyed by partition path, each group the
subsequence of rows sharing that path; an empty column list yields a single group
at the table root. -/
def planPartitions (cols : List String) (rows : List Row) : List (String × List Row) :=
  if cols.isEmpty then [("", rows)]
  else
    (distincts (rows.map (partitionPath cols))).map
      (fun p => (p, rows.filter (fun r => partitionPath cols r == p)))

theorem mem_distinctsAux {α : Type} [DecidableEq α] (l : List α) :
    ∀ (seen : List α) (x : α), x ∈ distinctsAux seen l ↔ x ∈ l ∧ x ∉ seen := by
  induction l with
  | nil =>
    intro seen x
    simp [distinctsAux]
  | cons a rest ih =>
    intro seen x
    by_cases ha : a ∈ seen
    · rw [show distinctsAux seen (a :: rest) = distinctsAux seen rest by
        simp [distinctsAux, ha]]
      rw [ih seen x]
      simp only [List.mem_cons]
      constructor
      · rintro ⟨hx, hn⟩
        exact ⟨Or.inr hx, hn⟩
      · rintro ⟨hx | hx, hn⟩
        · subst hx
          exact absurd ha hn
        · exact ⟨hx, hn⟩
    · rw [show distinctsAux seen (a :: rest) = a :: distinctsAux (a :: seen) rest by
        simp [distinctsAux, ha]]
      simp only [List.mem_cons, ih (a :: seen) x]
      constructor
      · rintro (hx | ⟨hx, hn⟩)
        · subst hx
          exact ⟨Or.inl rfl, ha⟩
        · exact ⟨Or.inr hx, fun hs => hn (Or.inr hs)⟩
      · rintro ⟨hx | hx, hn⟩
        · exact Or.inl hx
        · by_cases hxa : x = a
          · exact Or.inl hxa
          · refine Or.inr ⟨hx, fun hmem => ?_⟩
            rcases hmem with h | h
            · exact hxa h
            · exact hn h

theorem mem_distincts {α : Type} [DecidableEq α] (l : List α) (x : α) :
    x ∈ distincts l ↔ x ∈ l := by
  rw [distincts, mem_distinctsAux]
  simp

theorem partitionPath_nil (r : Row) : partitionPath [] r = "" := rfl

/-- Claim C6: for every row batch and ordered partition-column list, the planner
returns groups keyed by partition path whose rows are exactly the subsequence of
input rows sharing that path (in original order, as a filter of the input); every
input row appears in the group of its own path; and an empty partition-column
list yields a single group at the table root containing all rows. -/
theorem C6_partition_planner :
    (∀ rows : List Row, planPartitions [] rows = [("", rows)]) ∧
    (∀ (cols : List String) (rows : List Row) (p : String) (g : List Row),
      (p, g) ∈ planPartitions cols rows →
      g = rows.filter (fun r => partitionPath cols r == p)) ∧
    (∀ (cols : List String) (rows : List Row) (r : Row), r ∈ rows →
      ∃ g, (partitionPath cols r, g) ∈ planPartitions cols rows ∧ r ∈ g) := by
  refine ⟨fun rows => rfl, ?_, ?_⟩
  · intro cols rows p g hmem
    cases cols with
    | nil =>
      rw [show planPartitions [] rows = [("", rows)] from rfl] at hmem
      have heq := List.mem_singleton.mp hmem
      have hp : p = "" := congrArg Prod.fst heq
      have hg : g = rows := congrArg Prod.snd heq
      subst hp
      subst hg
      symm
      rw [List.filter_eq_self]
      intro a ha
      rfl
    | cons c cs =>
      have hrw : planPartitions (c :: cs) rows =
          (distincts (rows.map (partitionPath (c :: cs)))).map
            (fun p => (p, rows.filter (fun r => partitionPath (c :: cs) r == p))) := by
        simp [planPartitions]
      rw [hrw] at hmem
      obtain ⟨q, hq, heq⟩ := List.mem_map.mp hmem
      cases heq
      rfl
  · intro cols rows r hr
    cases cols with
    | nil =>
      refine ⟨rows, ?_, hr⟩
      rw [partitionPath_nil]
      exact List.mem_singleton.mpr rfl
    | cons c cs =>
      refine ⟨rows.filter (fun r' =>
        partitionPath (c :: cs) r' == partitionPath (c :: cs) r), ?_, ?_⟩
      · have hrw : planPartitions (c :: cs) rows =
            (distincts (rows.map (partitionPath (c :: cs)))).map
              (fun p => (p, rows.filter (fun r => partitionPath (c :: cs) r == p))) := by
          simp [planPartitions]
        rw [hrw]
        exact List.mem_map.mpr ⟨partitionPath (c :: cs) r,
          (mem_distincts _ _).mpr (List.mem_map.mpr ⟨r, hr, rfl⟩), rfl⟩
      · rw [List.mem_filter]
        exact ⟨hr, by simp⟩

/-- Witness for C6 on a concrete three-row batch partitioned by `user`. -/
theorem C6_partition_planner_witness :
    ([[("user", Value.strV "a")], [("user", Value.strV "b")], [("user", Value.strV "a")]].filter
        (fun r => partitionPath ["user"] r == "user=a") =
      [[("user", Value.strV "a")], [("user", Value.strV "a")]]) ∧
    (∃ g, (partitionPath ["user"] [("user", Value.strV "b")], g) ∈
        planPartitions ["user"]
          [[("user", Value.strV "a")], [("user", Value.strV "b")], [("user", Value.strV "a")]] ∧
      [("user", Value.strV "b")] ∈ g) := by
  constructor
  · exact (C6_partition_planner.2.1 ["user"]
      [[("user", Value.strV "a")], [("user", Value.strV "b")], [("user", Value.strV "a")]]
      "user=a" [[("user", Value.strV "a")], [("user", Value.strV "a")]] (by decide)).symm
  · exact C6_partition_planner.2.2 ["user"]
      [[("user", Value.strV "a")], [("user", Value.strV "b")], [("user", Value.strV "a")]]
      [("user", Value.strV "b")] (by decide)

/-! ### TransactionLog, table state and the write path -/

/-- An immutable data file as recorded by an add action. -/
structure DataFile where
  path : String
  partitionDir : String
  numRecords : Nat
deriving DecidableEq, Repr

/-- Modelled from the spec: log actions (spec §3, §6) — `add`, `remove` and
schema/partition metadata. -/
inductive Action where
  | add (f : DataFile)
  | remove (path : String)
  | metaData (schema : Schema) (partitionCols : List String)
deriving DecidableEq, Repr

/-- One committed log version: its ordered action list. -/
abbrev LogEntry := List Action

/-- The committed log: a totally ordered chain of versions. -/
abbrev CommitLog := List LogEntry

/-- Derived table state: live files, current schema and partition columns. -/
structure TableState where
  liveFiles : List DataFile
  schema : Option Schema
  partitionCols : List String
deriving DecidableEq, Repr

def TableState.empty : TableState := ⟨[], none, []⟩

/-- Modelled from the spec: applying one action during replay (spec §4.4) —
file set is adds minus removes keyed by path, last-writer-wins for metadata. -/
def applyAction (s : TableState) : Action → TableState
  | .add f => { s with liveFiles := s.liveFiles ++ [f] }
  | .remove p => { s with liveFiles := s.liveFiles.filter (fun f => f.path != p) }
  | .metaData sch cols => { s with schema := some sch, partitionCols := cols }

def applyEntry (s : TableState) (e : LogEntry) : TableState := e.foldl applyAction s

/-- Modelled from the spec: table-state reconstruction replays all committed
versions' actions in order starting from the empty table. -/
def replay (log : CommitLog) : TableState := log.foldl applyEntry TableState.empty

/-- The durable store backing one table: the committed log plus orphaned
temporary data files (tolerated garbage, never part of committed state). -/
structure Store where
  log : CommitLog
  tempFiles : List String
deriving DecidableEq, Repr

def Store.empty : Store := ⟨[], []⟩

/-- Table state as of version `V`: replay of the first `V` committed entries. -/
def stateAt (s : Store) (V : Nat) : TableState := replay (s.log.take V)

/-- Write failure taxonomy of spec §7, including the internal AlreadyExists signal. -/
inductive WriteError where
  | SchemaMismatch
  | ConcurrentModification
  | ConcurrentCommitExceeded
  | IOError
  | AlreadyExists
deriving DecidableEq, Repr

inductive Mode where
  | append
  | overwrite
deriving DecidableEq, Repr

/-- Outcome of one atomic-create attempt by the storage backend at a given
version slot: success, conflict (another writer took the slot; carries the
live paths now current), or transient I/O failure. -/
inductive AttemptOutcome where
  | success
  | alreadyExists (liveNow : List String)
  | ioFail

/-- The backend's atomic create, abstracted as the outcome per version slot. -/
abbrev Backend := Nat → AttemptOutcome

/-- Bounded optimistic retry count (spec §5: for example 5-10 attempts). -/
def maxCommitRetries : Nat := 10

/-- Modelled from the spec: one atomic-create attempt of the commit protocol
(spec §4.4). Success publishes the version; an I/O failure propagates; on
AlreadyExists an append simply retries at the next version, while an overwrite
re-validates that its intended removes are still live (re-fetching the remove
set) and otherwise fails with ConcurrentModification. -/
def commitAttempt (backend : Backend) (mode : Mode)
    (retry : List String → Nat → Except WriteError (Nat × List String))
    (removes : List String) (version : Nat) : Except WriteError (Nat × List String) :=
  match backend version with
  | .success => .ok (version, removes)
  | .ioFail => .error .IOError
  | .alreadyExists liveNow =>
    match mode with
    | .append => retry removes (version + 1)
    | .overwrite =>
      if removes.all (fun p => liveNow.contains p) then retry liveNow (version + 1)
      else .error .ConcurrentModification

/-- Modelled from the spec: the bounded optimistic commit retry loop (spec §4.4,
§5); when the fuel is exhausted the write fails with ConcurrentCommitExceeded. -/
def commitLoop (backend : Backend) (mode : Mode) :
    Nat → List String → Nat → Except WriteError (Nat × List String)
  | 0, _, _ => .error .ConcurrentCommitExceeded
  | fuel + 1, removes, version =>
    commitAttempt backend mode (commitLoop backend mode fuel) removes version

theorem commitLoop_succ (b : Backend) (mode : Mode) (fuel : Nat) (removes : List String)
    (v : Nat) :
    commitLoop b mode (fuel + 1) removes v =
      commitAttempt b mode (commitLoop b mode fuel) removes v := rfl

/-- Modelled from the spec: FileWriter (spec §4.3) — one immutable, uniquely
named file per partition group, recording its partition path and row count. -/
def writeFilesFor (version : Nat) (cols : List String) (rows : Batch) : List DataFile :=
  (planPartitions cols rows).enum.map (fun pr =>
    ⟨pr.2.1 ++ "/part-" ++ toString version ++ "-" ++ toString pr.1 ++ ".parquet",
     pr.2.1, pr.2.2.length⟩)

/-- The remove set of a write: appends never remove, overwrites remove every
currently-live file. -/
def removeSet : Mode → TableState → List String
  | .append, _ => []
  | .overwrite, st => st.liveFiles.map (fun f => f.path)

/-- The candidate action list of one commit. -/
def commitEntry (bs : Schema) (cols : List String) (removes : List String)
    (files : List DataFile) : LogEntry :=
  Action.metaData bs cols :: (removes.map Action.remove ++ files.map Action.add)

/-- Schema compatibility on write: no table schema yet, or every table column
present (identical or widened batch schema). -/
def schemaCompatible : Option Schema → Schema → Bool
  | none, _ => true
  | some ts, bs => ts.all (fun c => bs.contains c)

/-- Modelled from the spec: TableWriter.write (spec §4.5) — schema check, file
writing per partition group, then the atomic version commit; visibility is
gated entirely by the commit, so a failed write only leaves orphaned temp
files behind and never touches the committed log. -/
def writeTable (backend : Backend) (store : Store) (cols : List String) (batch : Batch)
    (mode : Mode) : Store × Except WriteError Unit :=
  if schemaCompatible (replay store.log).schema (batchSchema batch) then
    match commitLoop backend mode maxCommitRetries
        (removeSet mode (replay store.log)) (store.log.length + 1) with
    | .ok vr =>
      (⟨store.log ++ [commitEntry (batchSchema batch) cols vr.2
          (writeFilesFor (store.log.length + 1) cols batch)],
        store.tempFiles ++ (writeFilesFor (store.log.length + 1) cols batch).map
          (fun f => f.path)⟩, .ok ())
    | .error e =>
      (⟨store.log, store.tempFiles ++ (writeFilesFor (store.log.length + 1) cols batch).map
          (fun f => f.path)⟩, .error e)
  else (store, .error .SchemaMismatch)

/-- Folding a sequence of append writes over a store, keeping whatever each
write (successful or failed) leaves behind. -/
def runAppends (ws : List (Backend × List String × Batch)) (store : Store) : Store :=
  ws.foldl (fun s w => (writeTable w.1 s w.2.1 w.2.2 .append).1) store

/-- Claim C7: table-state reconstruction is a pure, deterministic function of the
committed log entries up to version V — any two stores agreeing on those entries
(whatever their orphaned temporary files) replay to identical table states. -/
theorem C7_replay_deterministic (s1 s2 : Store) (V : Nat)
    (h : s1.log.take V = s2.log.take V) :
    stateAt s1 V = stateAt s2 V := by
  unfold stateAt
  rw [h]

/-- Witness for C7: same committed log, different orphaned temp files. -/
theorem C7_replay_deterministic_witness :
    stateAt ⟨[[Action.add ⟨"f", "", 1⟩]], []⟩ 1 =
      stateAt ⟨[[Action.add ⟨"f", "", 1⟩]], ["tmp1", "tmp2"]⟩ 1 :=
  C7_replay_deterministic ⟨[[Action.add ⟨"f", "", 1⟩]], []⟩
    ⟨[[Action.add ⟨"f", "", 1⟩]], ["tmp1", "tmp2"]⟩ 1 (by decide)

/-! ### C1: append-only invariant -/

def actionAddFile : Action → Option DataFile
  | .add f => some f
  | _ => none

/-- The files added by one log entry. -/
def entryAdds (e : LogEntry) : List DataFile := e.filterMap actionAddFile

/-- An entry containing no remove action. -/
def entryHasNoRemove (e : LogEntry) : Prop := ∀ a ∈ e, ∀ p, a ≠ Action.remove p

theorem applyEntry_liveFiles_of_noRemove (e : LogEntry) :
    ∀ s : TableState, entryHasNoRemove e →
      (applyEntry s e).liveFiles = s.liveFiles ++ entryAdds e := by
  induction e with
  | nil =>
    intro s _
    simp [applyEntry, entryAdds]
  | cons a e' ih =>
    intro s h
    have htail : entryHasNoRemove e' := fun a' ha' => h a' (List.mem_cons_of_mem a ha')
    have hhead := h a (List.mem_cons_self a e')
    rw [show applyEntry s (a :: e') = applyEntry (applyAction s a) e' from rfl]
    rw [ih (applyAction s a) htail]
    cases a with
    | add f => simp [applyAction, entryAdds, actionAddFile]
    | remove p => exact absurd rfl (hhead p)
    | metaData sch cols => simp [applyAction, entryAdds, actionAddFile]

theorem foldl_applyEntry_liveFiles (log : CommitLog) :
    ∀ s : TableState, (∀ e ∈ log, entryHasNoRemove e) →
      (log.foldl applyEntry s).liveFiles = s.liveFiles ++ log.flatMap entryAdds := by
  induction log with
  | nil =>
    intro s _
    simp
  | cons e log' ih =>
    intro s h
    rw [List.foldl_cons,
      ih (applyEntry s e) (fun e' he' => h e' (List.mem_cons_of_mem e he')),
      applyEntry_liveFiles_of_noRemove e s (h e (List.mem_cons_self e log'))]
    simp

theorem commitLoop_append_ok (b : Backend) :
    ∀ (fuel : Nat) (removes : List String) (v w : Nat) (rs : List String),
      commitLoop b .append fuel removes v = .ok (w, rs) → rs = removes := by
  intro fuel
  induction fuel with
  | zero =>
    intro removes v w rs h
    simp [commitLoop] at h
  | succ n ih =>
    intro removes v w rs h
    rw [commitLoop_succ] at h
    unfold commitAttempt at h
    cases hb : b v with
    | success =>
      rw [hb] at h
      simp only [Except.ok.injEq, Prod.mk.injEq] at h
      exact h.2.symm
    | alreadyExists l =>
      rw [hb] at h
      exact ih removes (v + 1) w rs h
    | ioFail =>
      rw [hb] at h
      simp at h

theorem commitEntry_noRemove (bs : Schema) (cols : List String) (files : List DataFile) :
    entryHasNoRemove (commitEntry bs cols [] files) := by
  intro a ha p
  simp only [commitEntry, List.map_nil, List.nil_append, List.mem_cons, List.mem_map] at ha
  rcases ha with h | ⟨f, _, h⟩
  · subst h
    simp
  · subst h
    simp

theorem writeTable_append_log (b : Backend) (store : Store) (cols : List String) (batch : Batch) :
    (writeTable b store cols batch .append).1.log = store.log ∨
    ∃ e, (writeTable b store cols batch .append).1.log = store.log ++ [e] ∧
      entryHasNoRemove e := by
  unfold writeTable
  by_cases hs : schemaCompatible (replay store.log).schema (batchSchema batch)
  · rw [if_pos hs]
    cases hcl : commitLoop b .append maxCommitRetries
        (removeSet .append (replay store.log)) (store.log.length + 1) with
    | ok vr =>
      right
      refine ⟨_, rfl, ?_⟩
      have hrs : vr.2 = removeSet .append (replay store.log) :=
        commitLoop_append_ok b maxCommitRetries _ _ vr.1 vr.2 hcl
      have hempty : vr.2 = ([] : List String) := hrs
      rw [hempty]
      exact commitEntry_noRemove _ _ _
    | error e =>
      left
      rfl
  · rw [if_neg hs]
    left
    rfl

theorem runAppends_noRemove (ws : List (Backend × List String × Batch)) :
    ∀ store : Store, (∀ e ∈ store.log, entryHasNoRemove e) →
      ∀ e ∈ (runAppends ws store).log, entryHasNoRemove e := by
  induction ws with
  | nil =>
    intro store h
    exact h
  | cons w ws' ih =>
    intro store h
    rw [show runAppends (w :: ws') store =
      runAppends ws' (writeTable w.1 store w.2.1 w.2.2 .append).1 from rfl]
    apply ih
    rcases writeTable_append_log w.1 store w.2.1 w.2.2 with hlog | ⟨e, hlog, he⟩
    · rw [hlog]
      exact h
    · rw [hlog]
      intro e' he'
      rcases List.mem_append.mp he' with h1 | h1
      · exact h e' h1
      · rw [List.mem_singleton.mp h1]
        exact he

/-- Claim C1: after any sequence of append writes from the empty table, no
committed log entry contains a remove action, and the replayed live-file set
equals the union (concatenation, in order) of the files added across all
committed versions. -/
theorem C1_append_only (ws : List (Backend × List String × Batch)) :
    (∀ e ∈ (runAppends ws Store.empty).log, ∀ a ∈ e, ∀ p, a ≠ Action.remove p) ∧
    (replay (runAppends ws Store.empty).log).liveFiles =
      (runAppends ws Store.empty).log.flatMap entryAdds := by
  have hinv : ∀ e ∈ (runAppends ws Store.empty).log, entryHasNoRemove e := by
    apply runAppends_noRemove ws Store.empty
    intro e he
    simp [Store.empty] at he
  refine ⟨hinv, ?_⟩
  have h := foldl_applyEntry_liveFiles (runAppends ws Store.empty).log TableState.empty hinv
  simpa [replay, TableState.empty] using h

/-- Witness for C1: one successful append of the source's first batch. -/
theorem C1_append_only_witness :
    Action.metaData (batchSchema (generate_data 1 3 0)) ["user"] ≠ Action.remove "gone" ∧
    (replay (runAppends [(fun _ => AttemptOutcome.success, ["user"], generate_data 1 3 0)]
        Store.empty).log).liveFiles =
      (runAppends [(fun _ => AttemptOutcome.success, ["user"], generate_data 1 3 0)]
        Store.empty).log.flatMap entryAdds := by
  refine ⟨?_, (C1_append_only
    [(fun _ => AttemptOutcome.success, ["user"], generate_data 1 3 0)]).2⟩
  exact (C1_append_only [(fun _ => AttemptOutcome.success, ["user"], generate_data 1 3 0)]).1
    (commitEntry (batchSchema (generate_data 1 3 0)) ["user"] []
      (writeFilesFor 1 ["user"] (generate_data 1 3 0)))
    (by decide)
    (Action.metaData (batchSchema (generate_data 1 3 0)) ["user"])
    (by decide) "gone"

/-! ### C3, C4, C5: failure semantics -/

/-- Claim C3: every failed write — whatever the failure outcome — leaves the
committed log, and hence the replayed table state (file set, schema, partition
columns) and the version, exactly as they were before the write began. -/
theorem C3_failure_leaves_state (b : Backend) (store : Store) (cols : List String)
    (batch : Batch) (mode : Mode) (err : WriteError)
    (h : (writeTable b store cols batch mode).2 = .error err) :
    (writeTable b store cols batch mode).1.log = store.log ∧
    replay (writeTable b store cols batch mode).1.log = replay store.log ∧
    (writeTable b store cols batch mode).1.log.length = store.log.length := by
  unfold writeTable at h ⊢
  by_cases hs : schemaCompatible (replay store.log).schema (batchSchema batch)
  · rw [if_pos hs] at h ⊢
    cases hcl : commitLoop b mode maxCommitRetries
        (removeSet mode (replay store.log)) (store.log.length + 1) with
    | ok vr =>
      rw [hcl] at h
      simp at h
    | error e =>
      exact ⟨rfl, rfl, rfl⟩
  · rw [if_neg hs]
    exact ⟨rfl, rfl, rfl⟩

/-- Witness for C3: an I/O failure on the first commit attempt. -/
theorem C3_failure_leaves_state_witness :
    (writeTable (fun _ => AttemptOutcome.ioFail) Store.empty ["user"]
        (generate_data 1 3 0) .append).2 = .error .IOError ∧
    (writeTable (fun _ => AttemptOutcome.ioFail) Store.empty ["user"]
        (generate_data 1 3 0) .append).1.log = Store.empty.log := by
  refine ⟨rfl, ?_⟩
  exact (C3_failure_leaves_state (fun _ => AttemptOutcome.ioFail) Store.empty ["user"]
    (generate_data 1 3 0) .append .IOError rfl).1

theorem commitLoop_ne_alreadyExists (b : Backend) (mode : Mode) :
    ∀ (fuel : Nat) (removes : List String) (v : Nat),
      commitLoop b mode fuel removes v ≠ .error .AlreadyExists := by
  intro fuel
  induction fuel with
  | zero =>
    intro removes v
    simp [commitLoop]
  | succ n ih =>
    intro removes v
    rw [commitLoop_succ]
    unfold commitAttempt
    cases hb : b v with
    | success => simp
    | ioFail => simp
    | alreadyExists liveNow =>
      dsimp only
      cases mode with
      | append => exact ih removes (v + 1)
      | overwrite =>
        dsimp only
        by_cases hall : removes.all (fun p => liveNow.contains p)
        · rw [if_pos hall]
          exact ih liveNow (v + 1)
        · rw [if_neg hall]
          simp

theorem commitLoop_append_step (b : Backend) (fuel : Nat) (removes : List String)
    (v : Nat) (liveNow : List String) (hb : b v = .alreadyExists liveNow) :
    commitLoop b .append (fuel + 1) removes v = commitLoop b .append fuel removes (v + 1) := by
  rw [commitLoop_succ]
  unfold commitAttempt
  rw [hb]

theorem commitLoop_exhausts (b : Backend) (hb : ∀ k, ∃ l, b k = .alreadyExists l) :
    ∀ (fuel : Nat) (removes : List String) (v : Nat),
      commitLoop b .append fuel removes v = .error .ConcurrentCommitExceeded := by
  intro fuel
  induction fuel with
  | zero =>
    intro removes v
    rfl
  | succ n ih =>
    intro removes v
    obtain ⟨l, hl⟩ := hb v
    rw [commitLoop_append_step b n removes v l hl]
    exact ih removes (v + 1)

/-- Claim C4: the backend's AlreadyExists signal is never surfaced — neither by
the commit retry loop nor by write; each occurrence makes the loop retry at the
next version number, and when every attempt conflicts the bounded retries end
in ConcurrentCommitExceeded. -/
theorem C4_alreadyExists_consumed :
    (∀ (b : Backend) (mode : Mode) (fuel : Nat) (removes : List String) (v : Nat),
      commitLoop b mode fuel removes v ≠ .error .AlreadyExists) ∧
    (∀ (b : Backend) (store : Store) (cols : List String) (batch : Batch) (mode : Mode),
      (writeTable b store cols batch mode).2 ≠ .error .AlreadyExists) ∧
    (∀ (b : Backend) (fuel : Nat) (removes : List String) (v : Nat) (liveNow : List String),
      b v = .alreadyExists liveNow →
      commitLoop b .append (fuel + 1) removes v = commitLoop b .append fuel removes (v + 1)) ∧
    (∀ b : Backend, (∀ k, ∃ l, b k = .alreadyExists l) →
      ∀ (fuel : Nat) (removes : List String) (v : Nat),
        commitLoop b .append fuel removes v = .error .ConcurrentCommitExceeded) := by
  refine ⟨fun b mode fuel removes v => commitLoop_ne_alreadyExists b mode fuel removes v,
    ?_, fun b fuel removes v liveNow hb => commitLoop_append_step b fuel removes v liveNow hb,
    fun b hb fuel removes v => commitLoop_exhausts b hb fuel removes v⟩
  intro b store cols batch mode h
  unfold writeTable at h
  by_cases hs : schemaCompatible (replay store.log).schema (batchSchema batch)
  · rw [if_pos hs] at h
    cases hcl : commitLoop b mode maxCommitRetries
        (removeSet mode (replay store.log)) (store.log.length + 1) with
    | ok vr =>
      rw [hcl] at h
      simp at h
    | error e =>
      rw [hcl] at h
      simp only [Except.error.injEq] at h
      subst h
      exact commitLoop_ne_alreadyExists b mode maxCommitRetries _ _ hcl
  · rw [if_neg hs] at h
    simp at h

/-- Witness for C4 with a backend that always reports a conflict. -/
theorem C4_alreadyExists_consumed_witness :
    commitLoop (fun _ => AttemptOutcome.alreadyExists []) Mode.append 3 [] 5 =
      commitLoop (fun _ => AttemptOutcome.alreadyExists []) Mode.append 2 [] 6 ∧
    commitLoop (fun _ => AttemptOutcome.alreadyExists []) Mode.append 10 [] 1 =
      .error .ConcurrentCommitExceeded ∧
    commitLoop (fun _ => AttemptOutcome.alreadyExists []) Mode.overwrite 4 ["a"] 2 ≠
      .error .AlreadyExists ∧
    (writeTable (fun _ => AttemptOutcome.alreadyExists []) Store.empty ["user"]
        (generate_data 1 3 0) .append).2 ≠ .error .AlreadyExists := by
  obtain ⟨h1, h2, h3, h4⟩ := C4_alreadyExists_consumed
  exact ⟨h3 (fun _ => AttemptOutcome.alreadyExists []) 2 [] 5 [] rfl,
    h4 (fun _ => AttemptOutcome.alreadyExists []) (fun k => ⟨[], rfl⟩) 10 [] 1,
    h1 (fun _ => AttemptOutcome.alreadyExists []) Mode.overwrite 4 ["a"] 2,
    h2 (fun _ => AttemptOutcome.alreadyExists []) Store.empty ["user"]
      (generate_data 1 3 0) .append⟩

theorem lookup_none_not_mem (c : String) (bs : Schema) :
    List.lookup c bs = none → ∀ ty : ValueType, (c, ty) ∉ bs := by
  induction bs with
  | nil =>
    intro _ ty hmem
    cases hmem
  | cons p rest ih =>
    obtain ⟨k, v⟩ := p
    intro h ty hmem
    rw [show List.lookup c ((k, v) :: rest) = (match c == k with
      | true => some v
      | false => List.lookup c rest) from rfl] at h
    cases hc : c == k with
    | true =>
      rw [hc] at h
      simp at h
    | false =>
      rw [hc] at h
      rcases List.mem_cons.mp hmem with h1 | h1
      · have hck : c = k := congrArg Prod.fst h1
        rw [hck] at hc
        simp at hc
      · exact ih h ty h1

theorem schemaCompatible_missing (ts bs : Schema) (c : String) (ty : ValueType)
    (hmem : (c, ty) ∈ ts) (hlookup : List.lookup c bs = none) :
    schemaCompatible (some ts) bs = false := by
  have hnot : (c, ty) ∉ bs := lookup_none_not_mem c bs hlookup ty
  unfold schemaCompatible
  rw [List.all_eq_false]
  refine ⟨(c, ty), hmem, ?_⟩
  simp [hnot]

/-- Claim C5: an append whose batch schema is missing a column present in the
table's current schema fails with SchemaMismatch and returns the store — log,
version and state — unchanged. -/
theorem C5_schema_mismatch (b : Backend) (store : Store) (cols : List String)
    (batch : Batch) (ts : Schema) (c : String) (ty : ValueType)
    (hschema : (replay store.log).schema = some ts)
    (hmem : (c, ty) ∈ ts)
    (hmissing : List.lookup c (batchSchema batch) = none) :
    writeTable b store cols batch .append = (store, .error .SchemaMismatch) := by
  have hcompat : schemaCompatible (replay store.log).schema (batchSchema batch) = false := by
    rw [hschema]
    exact schemaCompatible_missing ts (batchSchema batch) c ty hmem hmissing
  unfold writeTable
  rw [hcompat]
  simp

/-- Witness for C5: a table whose schema has a `user` column, appended with a
batch lacking it. -/
theorem C5_schema_mismatch_witness :
    writeTable (fun _ => AttemptOutcome.success)
        ⟨[[Action.metaData [("user", ValueType.strT)] ["user"]]], []⟩ ["user"]
        [[("id", Value.intV 0)]] .append =
      (⟨[[Action.metaData [("user", ValueType.strT)] ["user"]]], []⟩,
        .error .SchemaMismatch) :=
  C5_schema_mismatch (fun _ => AttemptOutcome.success)
    ⟨[[Action.metaData [("user", ValueType.strT)] ["user"]]], []⟩ ["user"]
    [[("id", Value.intV 0)]] [("user", ValueType.strT)] "user" ValueType.strT
    (by decide) (by decide) (by decide)

/-! ### C2: the source's two-append scenario -/

def tableVersion (s : Store) : Nat := s.log.length

def totalRows (s : Store) : Nat :=
  ((replay s.log).liveFiles.map (fun f => f.numRecords)).sum

def partitionDirs (s : Store) : List String :=
  distincts ((replay s.log).liveFiles.map (fun f => f.partitionDir))

/-- A conflict-free backend: every atomic create succeeds at once. -/
def okBackend : Backend := fun _ => AttemptOutcome.success

set_option maxHeartbeats 4000000 in
/-- Claim C2: from the empty table, appending the source's first batch (3 rows,
ids 1-3, partitioned by `user`) succeeds and yields version 1 with 2 partitions
and 3 total rows; appending the second batch (ids 4-6) succeeds and yields
version 2 with 6 total rows and an unchanged partition set — for any pair of
start times. -/
theorem C2_two_append_scenario (t1 t2 : Int) :
    (writeTable okBackend Store.empty ["user"] (generate_data 1 3 t1) .append).2 = .ok () ∧
    tableVersion (writeTable okBackend Store.empty ["user"]
      (generate_data 1 3 t1) .append).1 = 1 ∧
    (partitionDirs (writeTable okBackend Store.empty ["user"]
      (generate_data 1 3 t1) .append).1).length = 2 ∧
    totalRows (writeTable okBackend Store.empty ["user"]
      (generate_data 1 3 t1) .append).1 = 3 ∧
    (writeTable okBackend (writeTable okBackend Store.empty ["user"]
      (generate_data 1 3 t1) .append).1 ["user"] (generate_data 4 3 t2) .append).2 = .ok () ∧
    tableVersion (writeTable okBackend (writeTable okBackend Store.empty ["user"]
      (generate_data 1 3 t1) .append).1 ["user"] (generate_data 4 3 t2) .append).1 = 2 ∧
    totalRows (writeTable okBackend (writeTable okBackend Store.empty ["user"]
      (generate_data 1 3 t1) .append).1 ["user"] (generate_data 4 3 t2) .append).1 = 6 ∧
    partitionDirs (writeTable okBackend (writeTable okBackend Store.empty ["user"]
      (generate_data 1 3 t1) .append).1 ["user"] (generate_data 4 3 t2) .append).1 =
      partitionDirs (writeTable okBackend Store.empty ["user"]
        (generate_data 1 3 t1) .append).1 :=
  ⟨rfl, rfl, rfl, rfl, rfl, rfl, rfl, rfl⟩

/-! ### C8, C10: storage options, backend selection and script setup -/

/-- A process environment: variable name to optional value, as `os.getenv`. -/
abbrev Env := String → Option String

/-- Python truthiness of `os.getenv(k)`: set and non-empty. -/
def envTruthy (env : Env) (k : String) : Bool :=
  match env k with
  | none => false
  | some s => s != ""

/-- The recognized storage-option keys (credential id, credential secret,
endpoint URL). -/
structure StorageOptions where
  accessKeyId : Option String
  secretAccessKey : Option String
  endpointUrl : Option String
deriving DecidableEq, Repr

/-- Embedded from `src/deltalake/write.py` lines 8-12: the storage-options dict
is built from the environment when `AWS_ACCESS_KEY_ID` is truthy, else None. -/
def storage_options (env : Env) : Option StorageOptions :=
  if envTruthy env "AWS_ACCESS_KEY_ID" then
    some ⟨env "AWS_ACCESS_KEY_ID", env "AWS_SECRET_ACCESS_KEY", env "S3_ENDPOINT"⟩
  else none

/-- Embedded from `src/deltalake/write.py` line 15: the table path is the s3
bucket path when storage options are present, else the local directory. -/
def path_of (env : Env) : String :=
  if (storage_options env).isSome then
    "s3://" ++ ((env "S3_BUCKET").getD "") ++ "/delta_table/"
  else "delta_table/"

/-- Embedded from `src/deltalake/write.py` lines 17-19: the local table
directory is deleted (reset) exactly when storage options are absent. -/
def resetsLocal (env : Env) : Bool := (storage_options env).isNone

/-- The table store the script's first append starts from: whatever was there
before unless the script reset it. -/
def initialStore (env : Env) (prior : Store) : Store :=
  if resetsLocal env then Store.empty else prior

/-- The two storage backend variants. -/
inductive BackendKind where
  | localFilesystem
  | objectStore
deriving DecidableEq, Repr

/-- Backend selection as a function of the storage options alone. -/
def selectBackend : Option StorageOptions → BackendKind
  | none => .localFilesystem
  | some _ => .objectStore

/-- A table handle: path and backend, fixed at open time. -/
structure TableHandle where
  tablePath : String
  backend : BackendKind
deriving DecidableEq, Repr

/-- Modelled from the spec: `open(tablePath, storageOptions)` resolves the
backend once from the storage options and fixes it in the handle (spec §6). -/
def openTable (tablePath : String) (so : Option StorageOptions) : TableHandle :=
  ⟨tablePath, selectBackend so⟩

/-- Claim C8: backend selection is a function of credential presence in the
storage options — absent credentials select the local filesystem, present
credentials the object store — and the handle built at open time carries
exactly that selection, depending on nothing else. -/
theorem C8_backend_selection (env : Env) (p : String) :
    (storage_options env = none →
      (openTable p (storage_options env)).backend = .localFilesystem) ∧
    (∀ c : StorageOptions, storage_options env = some c →
      (openTable p (storage_options env)).backend = .objectStore) ∧
    (∀ (q : String) (so : Option StorageOptions),
      (openTable p so).backend = (openTable q so).backend) := by
  refine ⟨?_, ?_, fun q so => rfl⟩
  · intro h
    rw [show (openTable p (storage_options env)).backend =
      selectBackend (storage_options env) from rfl, h]
    rfl
  · intro c h
    rw [show (openTable p (storage_options env)).backend =
      selectBackend (storage_options env) from rfl, h]
    rfl

/-- Witness for C8 on an empty environment and one holding credentials. -/
theorem C8_backend_selection_witness :
    (openTable "delta_table/" (storage_options (fun _ => none))).backend =
      .localFilesystem ∧
    (openTable "s3://b/delta_table/"
        (storage_options (fun _ => some "key"))).backend = .objectStore := by
  refine ⟨(C8_backend_selection (fun _ => none) "delta_table/").1 rfl, ?_⟩
  exact (C8_backend_selection (fun _ => some "key") "s3://b/delta_table/").2.1
    ⟨some "key", some "key", some "key"⟩ rfl

/-- Claim C10: with `AWS_ACCESS_KEY_ID` unset the script has no storage options,
uses the local path, and resets the table directory, so the appends start from
an empty table; with truthy credentials there is no reset and the path is the
s3 bucket path. -/
theorem C10_script_setup (env : Env) (prior : Store) :
    (env "AWS_ACCESS_KEY_ID" = none →
      storage_options env = none ∧
      path_of env = "delta_table/" ∧
      resetsLocal env = true ∧
      initialStore env prior = Store.empty) ∧
    (∀ s : String, env "AWS_ACCESS_KEY_ID" = some s → s ≠ "" →
      (storage_options env).isSome = true ∧
      resetsLocal env = false ∧
      initialStore env prior = prior ∧
      path_of env = "s3://" ++ ((env "S3_BUCKET").getD "") ++ "/delta_table/") := by
  constructor
  · intro h
    have htruthy : envTruthy env "AWS_ACCESS_KEY_ID" = false := by
      unfold envTruthy
      rw [h]
    have hso : storage_options env = none := by
      unfold storage_options
      rw [htruthy]
      rfl
    refine ⟨hso, ?_, ?_, ?_⟩
    · unfold path_of
      rw [hso]
      rfl
    · unfold resetsLocal
      rw [hso]
      rfl
    · unfold initialStore resetsLocal
      rw [hso]
      rfl
  · intro s h hne
    have htruthy : envTruthy env "AWS_ACCESS_KEY_ID" = true := by
      unfold envTruthy
      rw [h]
      simpa using hne
    have hso : storage_options env =
        some ⟨env "AWS_ACCESS_KEY_ID", env "AWS_SECRET_ACCESS_KEY", env "S3_ENDPOINT"⟩ := by
      unfold storage_options
      rw [htruthy]
      rfl
    refine ⟨?_, ?_, ?_, ?_⟩
    · rw [hso]
      rfl
    · unfold resetsLocal
      rw [hso]
      rfl
    · unfold initialStore resetsLocal
      rw [hso]
      rfl
    · unfold path_of
      rw [hso]
      rfl

/-- Witness for C10: the empty environment, and one with credentials and bucket. -/
theorem C10_script_setup_witness :
    (storage_options (fun _ => none) = none ∧
      path_of (fun _ => none) = "delta_table/" ∧
      resetsLocal (fun _ => none) = true ∧
      initialStore (fun _ => none) ⟨[[Action.add ⟨"f", "", 1⟩]], []⟩ = Store.empty) ∧
    (resetsLocal (fun _ => some "key") = false ∧
      initialStore (fun _ => some "key") ⟨[[Action.add ⟨"f", "", 1⟩]], []⟩ =
        ⟨[[Action.add ⟨"f", "", 1⟩]], []⟩ ∧
      path_of (fun _ => some "key") = "s3://key/delta_table/") := by
  constructor
  · exact (C10_script_setup (fun _ => none) ⟨[[Action.add ⟨"f", "", 1⟩]], []⟩).1 rfl
  · obtain ⟨_, h2, h3, h4⟩ := (C10_script_setup (fun _ => some "key")
      ⟨[[Action.add ⟨"f", "", 1⟩]], []⟩).2 "key" rfl (by decide)
    exact ⟨h2, h3, h4⟩

end DuckPond
